import Mathlib

/-!
Verification of the mautrix-signal formatter (src/mautrix_signal/formatter.py):
the UTF-16 surrogate codec, the inbound mention substitution
(signal_to_matrix), the SignalFormatString markup operations, the user-pill
resolution, and the outbound conversion entry point (matrix_to_signal).

A Python str is modelled as a list of natural numbers, one per Unicode code
point (0 .. 0x10FFFF).  The expanded working representation produced by
add_surrogate is likewise a list of naturals, one per UTF-16 code unit.
External collaborators (puppet/user directory lookups, the Matrix HTML
parser) are passed in as parameters; helpers of the external mautrix
formatter library that the source calls are modelled from the spec where
noted.  String literals from the source are written as explicit lists of
code points with the literal in a comment.
-/

/-- High surrogate code unit (0xD800 to 0xDBFF). -/
def isHighB (c : Nat) : Bool := decide (0xD800 ≤ c) && decide (c ≤ 0xDBFF)

/-- Low surrogate code unit (0xDC00 to 0xDFFF). -/
def isLowB (c : Nat) : Bool := decide (0xDC00 ≤ c) && decide (c ≤ 0xDFFF)

/-- Recombine a high and a low surrogate into the astral code point they
encode, as the strict utf-16 decode does. -/
def decodeSP (h l : Nat) : Nat := 0x10000 + (h - 0xD800) * 0x400 + (l - 0xDC00)

/-- The two UTF-16 code units of an astral code point, exactly what
struct.unpack of the utf-16le encoding of the character yields in
add_surrogate. -/
def surrogatePair (c : Nat) : List Nat :=
  [0xD800 + (c - 0x10000) / 0x400, 0xDC00 + (c - 0x10000) % 0x400]

/-- formatter.add_surrogate: every code point with 0x10000 <= ord(x) <= 0x10FFFF
is replaced by its two UTF-16 surrogate code units; every other character
passes through unchanged. -/
def add_surrogate (s : List Nat) : List Nat :=
  (s.map (fun c => if 0x10000 ≤ c ∧ c ≤ 0x10FFFF then surrogatePair c else [c])).flatten

/-- formatter.del_surrogate: text.encode("utf-16", "surrogatepass").decode("utf-16").
Adjacent high+low surrogate code points are recombined into one astral code
point; a surrogate that cannot be paired makes the strict utf-16 decode
raise, modelled as none. -/
def del_surrogate : List Nat → Option (List Nat)
  | [] => some []
  | c :: rest =>
    if isHighB c then
      match rest with
      | [] => none
      | d :: rest' =>
        if isLowB d then (del_surrogate rest').map (fun t => decodeSP c d :: t) else none
    else if isLowB c then none
    else (del_surrogate rest).map (fun t => c :: t)

/-- The left-to-right utf-16 pairing finds a surrogate that cannot be
paired: a high surrogate not followed by a low one, or a low surrogate not
preceded by a pairing high one. -/
def hasLoneSurrogateB : List Nat → Bool
  | [] => false
  | c :: rest =>
    if isHighB c then
      match rest with
      | [] => true
      | d :: rest' => if isLowB d then hasLoneSurrogateB rest' else true
    else if isLowB c then true
    else hasLoneSurrogateB rest

/-- A Unicode scalar value: a valid code point that is not a surrogate. -/
def isScalarB (c : Nat) : Bool :=
  decide (c < 0x110000) && !(isHighB c) && !(isLowB c)

/-! ## Data model

mausignald.types.Mention carries a uuid, a start offset and a length; the
offsets are plain Python ints, so they are modelled as integers.  Puppet and
User are the directory collaborators: Puppet.get_by_address always yields a
puppet record, the two get_by_mxid lookups may fail. -/

/-- A Signal mention span (mausignald.types.Mention). -/
structure Mention where
  uuid : Nat
  start : Int
  length : Int
deriving DecidableEq

/-- A Signal message body with its mention list (mausignald.types.MessageData,
restricted to the fields the formatter reads). -/
structure MessageData where
  body : List Nat
  mentions : List Mention
deriving DecidableEq

/-- A puppet directory record: matrix id and optional display name. -/
structure Puppet where
  uuid : Nat
  name : Option (List Nat)
  mxid : List Nat
deriving DecidableEq

/-- A bridge user record: its optional linked Signal uuid. -/
structure User where
  uuid : Option Nat
deriving DecidableEq

/-- mautrix.types.MessageType, restricted to the values the formatter
compares against. -/
inductive MessageType where
  | text
  | emote
  | notice
deriving DecidableEq

/-- mautrix.types.Format: the only member the formatter uses is HTML. -/
inductive Format where
  | html
deriving DecidableEq

/-- mautrix.types.TextMessageEventContent, restricted to the fields the
formatter reads and writes. -/
structure TextMessageEventContent where
  msgtype : MessageType
  body : List Nat
  format : Option Format
  formatted_body : Option (List Nat)
deriving DecidableEq

/-! ## Python sequence slicing

signal_to_matrix slices the expanded body with plain Python slice syntax,
so the embedding needs Python slice semantics: negative indices count from
the end, out-of-range indices clamp to the bounds, and no slice ever
raises. -/

/-- Normalise one Python slice endpoint for a sequence of length n. -/
def pyIdx (n : Nat) (i : Int) : Nat :=
  if i < 0 then ((n : Int) + i).toNat else min i.toNat n

/-- Python s[a:b]. -/
def pySlice (s : List Nat) (a b : Int) : List Nat :=
  (s.take (pyIdx s.length b)).drop (pyIdx s.length a)

/-- Python s[a:]. -/
def pySliceFrom (s : List Nat) (a : Int) : List Nat :=
  s.drop (pyIdx s.length a)

/-! ## html.escape and the mention anchor -/

/-- Python html.escape on one character (quote=True default): the five
special characters become entity references, everything else passes
through. -/
def escapeChar (c : Nat) : List Nat :=
  if c = 38 then [38, 97, 109, 112, 59]        -- & becomes &amp;
  else if c = 60 then [38, 108, 116, 59]        -- < becomes &lt;
  else if c = 62 then [38, 103, 116, 59]        -- > becomes &gt;
  else if c = 34 then [38, 113, 117, 111, 116, 59]  -- double quote becomes &quot;
  else if c = 39 then [38, 35, 120, 50, 55, 59]     -- single quote becomes &#x27;
  else [c]

/-- Python html.escape over a string. -/
def htmlEscape (s : List Nat) : List Nat :=
  (s.map escapeChar).flatten

/-- Code points of the literal: <a href="https://matrix.to/#/ -/
def anchorOpen : List Nat :=
  [60, 97, 32, 104, 114, 101, 102, 61, 34, 104, 116, 116, 112, 115, 58, 47, 47,
   109, 97, 116, 114, 105, 120, 46, 116, 111, 47, 35, 47]

/-- Code points of the literal: "> -/
def anchorMid : List Nat := [34, 62]

/-- Code points of the literal: </a> -/
def anchorClose : List Nat := [60, 47, 97, 62]

/-- Python: puppet.name or puppet.mxid (a None or empty name falls back to
the matrix id). -/
def pickName (p : Puppet) : List Nat :=
  match p.name with
  | some n => if n = [] then p.mxid else n
  | none => p.mxid

/-- The HTML chunk emitted for one mention: the matrix.to anchor around the
(already expanded) display name.  Neither part is html-escaped. -/
def anchorChunk (p : Puppet) (name : List Nat) : List Nat :=
  anchorOpen ++ p.mxid ++ anchorMid ++ name ++ anchorClose

/-! ## signal_to_matrix -/

/-- The mention loop of signal_to_matrix: walking the mention list while
threading last_offset, it accumulates the concatenated plain-text chunks,
the concatenated HTML chunks, and the final last_offset. -/
def chunksLoop (gp : Nat → Puppet) (s : List Nat) :
    List Mention → Int → List Nat × List Nat × Int
  | [], last => ([], [], last)
  | m :: rest, last =>
    let before := pySlice s last m.start
    let p := gp m.uuid
    let name := add_surrogate (pickName p)
    let r := chunksLoop gp s rest (m.start + m.length)
    (before ++ name ++ r.1, htmlEscape before ++ anchorChunk p name ++ r.2.1, r.2.2)

/-- formatter.signal_to_matrix.  The puppet directory lookup
(Puppet.get_by_address, keyed by the mention uuid) is the parameter gp.
A UnicodeDecodeError escaping from del_surrogate is modelled as none. -/
def signal_to_matrix (gp : Nat → Puppet) (message : MessageData) :
    Option TextMessageEventContent :=
  let surrogated := add_surrogate message.body
  match message.mentions with
  | [] => some ⟨MessageType.text, message.body, none, none⟩
  | m :: rest =>
    let r := chunksLoop gp surrogated (m :: rest) 0
    let endPart := pySliceFrom surrogated r.2.2
    match del_surrogate (r.1 ++ endPart), del_surrogate (r.2.1 ++ htmlEscape endPart) with
    | some b, some fb => some ⟨MessageType.text, b, some Format.html, some fb⟩
    | _, _ => none

/-! ## SignalFormatString

The class extends the mautrix EntityString/MarkdownString pair; only
format (and the mention-entity accessors) live in this repository.  The
EntityString helpers it calls (offset shifting, prepend, trim, split,
join) belong to the external mautrix library and are modelled from the
spec below. -/

/-- formatter.MentionEntity: a Mention whose offset property aliases
start. -/
structure MentionEntity where
  uuid : Nat
  start : Int
  length : Int
deriving DecidableEq

/-- A formatted string under construction: the text plus the attached
mention entities (formatter.SignalFormatString state). -/
@[ext]
structure SignalFormatString where
  text : List Nat
  entities : List MentionEntity
deriving DecidableEq

/-- The EntityType argument of format together with the keyword arguments
each branch reads. -/
inductive EntityTypeArg where
  | userMention (uuid : Nat)
  | bold
  | italic
  | strikethrough
  | url (url : List Nat)
  | preformatted (language : List Nat)
  | inlineCode
  | blockquote
  | header (size : Nat)
  | other
deriving DecidableEq

/-- Modelled from the spec: EntityString offset shifting, as used by
format - every attached entity's offset (its start) moves by the given
delta. -/
def SignalFormatString.offset_entities (fs : SignalFormatString) (n : Int) :
    SignalFormatString :=
  { fs with entities := fs.entities.map (fun e => { e with start := e.start + n }) }

/-- Modelled from the spec: EntityString.prepend - the text gains the
prefix and every entity offset grows by the prefix length. -/
def SignalFormatString.prepend (fs : SignalFormatString) (p : List Nat) :
    SignalFormatString :=
  { text := p ++ fs.text
    entities := fs.entities.map (fun e => { e with start := e.start + (p.length : Int) }) }

/-- Python whitespace characters stripped by str.strip (ASCII subset). -/
def isWspB (c : Nat) : Bool :=
  c = 32 || c = 9 || c = 10 || c = 13 || c = 11 || c = 12

/-- Python str.strip: drop leading and trailing whitespace. -/
def pyStrip (t : List Nat) : List Nat :=
  ((t.dropWhile (fun c => isWspB c)).reverse.dropWhile (fun c => isWspB c)).reverse

/-- Modelled from the spec: EntityString.trim - removes leading and
trailing whitespace; entities fully inside the remainder shift left by the
number of removed leading characters, entities not fully inside it are
dropped. -/
def SignalFormatString.trim (fs : SignalFormatString) : SignalFormatString :=
  let lead := fs.text.length - (fs.text.dropWhile (fun c => isWspB c)).length
  let kept := pyStrip fs.text
  { text := kept
    entities := fs.entities.filterMap (fun e =>
      if (lead : Int) ≤ e.start ∧ e.start + e.length ≤ (lead : Int) + (kept.length : Int)
      then some { e with start := e.start - (lead : Int) }
      else none) }

/-- Partition a unit list at every newline (code 10); the separators are
consumed, and the result always has one more segment than separators. -/
def splitNLTexts : List Nat → List (List Nat)
  | [] => [[]]
  | c :: rest =>
    if c = 10 then [] :: splitNLTexts rest
    else
      match splitNLTexts rest with
      | s :: ss => (c :: s) :: ss
      | [] => [[c]]

/-- Modelled from the spec: assigning each entity to the split segment
that contains its (re-based) start, clipping an entity that would cross
the segment end to the segment where it starts. -/
def segEntities (es : List MentionEntity) (base : Int) (len : Nat) (isLast : Bool) :
    List MentionEntity :=
  es.filterMap (fun e =>
    if base ≤ e.start ∧ (e.start < base + (len : Int) + 1 ∨ (isLast ∧ e.start ≤ base + (len : Int)))
    then some { e with start := e.start - base,
                       length := min e.length ((len : Int) - (e.start - base)) }
    else none)

/-- Modelled from the spec: EntityString.split on the newline separator -
partitions the text, reassigning every entity to the segment containing
its start. -/
def SignalFormatString.splitNL (fs : SignalFormatString) : List SignalFormatString :=
  let rec go : List (List Nat) → Int → List SignalFormatString
    | [], _ => []
    | [t], base => [⟨t, segEntities fs.entities base t.length true⟩]
    | t :: ts, base =>
      ⟨t, segEntities fs.entities base t.length false⟩ :: go ts (base + (t.length : Int) + 1)
  go (splitNLTexts fs.text) 0

/-- Modelled from the spec: EntityString.join with the newline separator -
concatenates the texts with newlines in between and re-bases every
entity by the cumulative length of the preceding parts and separators. -/
def SignalFormatString.joinNL : List SignalFormatString → SignalFormatString
  | [] => ⟨[], []⟩
  | [p] => p
  | p :: ps =>
    let rest := SignalFormatString.joinNL ps
    ⟨p.text ++ 10 :: rest.text,
     p.entities ++ rest.entities.map (fun e =>
       { e with start := e.start + (p.text.length : Int) + 1 })⟩

/-- The common tail of the wrapping branches of format: shift the entity
offsets by the prefix length, then rebuild the text as
prefix ++ text ++ suffix. -/
def wrapTail (fs : SignalFormatString) (p s : List Nat) : SignalFormatString :=
  { fs.offset_entities (p.length : Int) with text := p ++ fs.text ++ s }

/-- formatter.SignalFormatString.format: dispatch on the entity type.
USER_MENTION attaches a MentionEntity spanning the whole text;
BOLD/ITALIC/STRIKETHROUGH/INLINE_CODE wrap with their markers; URL appends
the target unless it equals the text; PREFORMATTED wraps in a fenced block
carrying the language; BLOCKQUOTE trims, splits on newlines, prepends
the quote marker (codes 62 32) to every line and rejoins; HEADER prepends
size hash marks and a space; anything else returns the string
unchanged. -/
def SignalFormatString.format (fs : SignalFormatString) :
    EntityTypeArg → SignalFormatString
  | .userMention uuid =>
    { fs with entities := fs.entities ++ [⟨uuid, 0, (fs.text.length : Int)⟩] }
  | .bold => wrapTail fs [42, 42] [42, 42]                      -- ** and **
  | .italic => wrapTail fs [95] [95]                            -- _ and _
  | .strikethrough => wrapTail fs [126, 126] [126, 126]         -- ~~ and ~~
  | .url u =>
    if u ≠ fs.text then wrapTail fs [] ([32, 40] ++ u ++ [41])  -- suffix: space ( url )
    else wrapTail fs [] []
  | .preformatted lang =>
    wrapTail fs ([96, 96, 96] ++ lang ++ [10]) [10, 96, 96, 96] -- fenced block
  | .inlineCode => wrapTail fs [96] [96]                        -- backquote marks
  | .blockquote =>
    SignalFormatString.joinNL ((fs.trim.splitNL).map (fun c => c.prepend [62, 32]))
  | .header size => wrapTail fs (List.replicate size 35 ++ [32]) []
  | .other => fs

/-! ## MatrixParser.user_pill_to_fstring and matrix_to_signal

The directory lookups User.get_by_mxid and Puppet.get_by_mxid (both with
create=False) are the parameters gu and gpm; the inherited HTML parser of
the mautrix library is the parameter parse. -/

/-- formatter.MatrixParser.user_pill_to_fstring: resolve the pill user id
first through the bridge user (requiring a linked uuid, the Python
truthiness test user and user.uuid), then through the puppet directory;
with no resolution the message is returned unchanged, otherwise the
user-mention format branch attaches the mention entity. -/
def user_pill_to_fstring (gu : Nat → Option User) (gpm : Nat → Option Puppet)
    (msg : SignalFormatString) (user_id : Nat) : SignalFormatString :=
  match (gu user_id).bind User.uuid with
  | some uuid => msg.format (.userMention uuid)
  | none =>
    match gpm user_id with
    | some puppet => msg.format (.userMention puppet.uuid)
    | none => msg

/-- Code points of the literal: /me  (the emote action marker). -/
def meTag : List Nat := [47, 109, 101, 32]

/-- formatter.matrix_to_signal.  The input content is mutated in place by
the emote branch before the format dispatch, so the embedding returns the
final state of the content alongside the conversion result; a decode error
escaping from del_surrogate is modelled as a none result.  Python
truthiness makes the emote branch and the HTML branch skip an empty
formatted body. -/
def matrix_to_signal (parse : List Nat → SignalFormatString)
    (content : TextMessageEventContent) :
    TextMessageEventContent × Option (List Nat × List MentionEntity) :=
  let content1 :=
    if content.msgtype = MessageType.emote then
      { content with
        body := meTag ++ content.body
        formatted_body :=
          match content.formatted_body with
          | some fb => if fb ≠ [] then some (meTag ++ fb) else some fb
          | none => none }
    else content
  let result :=
    match content1.format, content1.formatted_body with
    | some Format.html, some fb =>
      if fb = [] then some (content1.body, [])
      else
        let parsed := parse (add_surrogate fb)
        (del_surrogate parsed.text).map (fun t => (t, parsed.entities))
    | _, _ => some (content1.body, [])
  (content1, result)

/-! ## Claim-side reference definitions -/

/-- The mention spans are sorted, non-overlapping and inside the n-unit
body, starting at or after the running offset. -/
def mentionsWF (n : Nat) : Int → List Mention → Bool
  | _, [] => true
  | off, m :: rest =>
    decide (off ≤ m.start) && decide (0 ≤ m.length) &&
    decide (m.start + m.length ≤ (n : Int)) &&
    mentionsWF n (m.start + m.length) rest

/-- Reference substitution for the plain body, in the expanded
representation: the text outside the mention spans verbatim, each mention
span replaced by the expanded resolved display name. -/
def substPlain (gp : Nat → Puppet) (s : List Nat) : Int → List Mention → List Nat
  | off, [] => s.drop off.toNat
  | off, m :: rest =>
    (s.drop off.toNat).take (m.start.toNat - off.toNat)
    ++ add_surrogate (pickName (gp m.uuid))
    ++ substPlain gp s (m.start + m.length) rest

/-- Reference substitution for the HTML body: the literal spans
html-escaped, each mention span replaced by the (unescaped) matrix.to
anchor around the expanded resolved display name. -/
def substHtml (gp : Nat → Puppet) (s : List Nat) : Int → List Mention → List Nat
  | off, [] => htmlEscape (s.drop off.toNat)
  | off, m :: rest =>
    htmlEscape ((s.drop off.toNat).take (m.start.toNat - off.toNat))
    ++ anchorChunk (gp m.uuid) (add_surrogate (pickName (gp m.uuid)))
    ++ substHtml gp s (m.start + m.length) rest

/-- The nesting markup kinds of the wrap invariant claim, with the
parameters each carries. -/
inductive WrapKind where
  | bold
  | italic
  | strikethrough
  | inlineCode
  | preformatted (language : List Nat)
  | header (size : Nat)
deriving DecidableEq

/-- The format argument a wrap kind stands for. -/
def WrapKind.toArg : WrapKind → EntityTypeArg
  | .bold => .bold
  | .italic => .italic
  | .strikethrough => .strikethrough
  | .inlineCode => .inlineCode
  | .preformatted lang => .preformatted lang
  | .header size => .header size

/-- The decoration put before the text by a wrap kind (spec decision
table). -/
def WrapKind.preStr : WrapKind → List Nat
  | .bold => [42, 42]
  | .italic => [95]
  | .strikethrough => [126, 126]
  | .inlineCode => [96]
  | .preformatted lang => [96, 96, 96] ++ lang ++ [10]
  | .header size => List.replicate size 35 ++ [32]

/-- The decoration put after the text by a wrap kind (spec decision
table). -/
def WrapKind.sufStr : WrapKind → List Nat
  | .bold => [42, 42]
  | .italic => [95]
  | .strikethrough => [126, 126]
  | .inlineCode => [96]
  | .preformatted _ => [10, 96, 96, 96]
  | .header _ => []

/-- The claimed blockquote text transformation: the quote marker at the
start and again after every newline. -/
def quoteBody (t : List Nat) : List Nat :=
  (t.map (fun c => if c = 10 then [10, 62, 32] else [c])).flatten

/-- The claimed blockquote result on a whole text. -/
def quoteInsert (t : List Nat) : List Nat := [62, 32] ++ quoteBody t

/-- The text produced by joining a list of texts with newlines, mirroring
the recursion of SignalFormatString.joinNL. -/
def joinTexts : List (List Nat) → List Nat
  | [] => []
  | [t] => t
  | t :: ts => t ++ 10 :: joinTexts ts

/-- Joining texts with a newline followed by the quote marker, the shape
the blockquote rule produces between lines. -/
def qJoinTexts : List (List Nat) → List Nat
  | [] => []
  | [t] => t
  | t :: ts => t ++ 10 :: 62 :: 32 :: qJoinTexts ts


/-! ## Helper lemmas for the surrogate codec -/

theorem add_surrogate_nil : add_surrogate [] = [] := rfl

theorem add_surrogate_cons (c : Nat) (s : List Nat) :
    add_surrogate (c :: s) =
      (if 0x10000 ≤ c ∧ c ≤ 0x10FFFF then surrogatePair c else [c]) ++ add_surrogate s := by
  simp [add_surrogate]

theorem add_surrogate_append (s t : List Nat) :
    add_surrogate (s ++ t) = add_surrogate s ++ add_surrogate t := by
  simp [add_surrogate]

/-- Characters below the astral range pass through add_surrogate unchanged. -/
theorem add_surrogate_bmp (s : List Nat) (h : ∀ c ∈ s, c < 0x10000) :
    add_surrogate s = s := by
  induction s with
  | nil => rfl
  | cons c s ih =>
    have hc := h c (List.mem_cons_self c s)
    have hs : ∀ x ∈ s, x < 0x10000 := fun x hx => h x (List.mem_cons_of_mem c hx)
    rw [add_surrogate_cons, if_neg (by omega), ih hs]
    rfl

/-- del_surrogate is the identity on sequences with no surrogate units. -/
theorem del_surrogate_nosurr (s : List Nat)
    (h : ∀ c ∈ s, isHighB c = false ∧ isLowB c = false) :
    del_surrogate s = some s := by
  induction s with
  | nil => rfl
  | cons c s ih =>
    have hc := h c (List.mem_cons_self c s)
    have hs : ∀ x ∈ s, isHighB x = false ∧ isLowB x = false :=
      fun x hx => h x (List.mem_cons_of_mem c hx)
    rw [del_surrogate.eq_def]
    simp [hc.1, hc.2, ih hs]

/-- Expanding a list of scalar values and collapsing it again restores the
original list. -/
theorem del_add_surrogate (s : List Nat) (h : ∀ c ∈ s, isScalarB c = true) :
    del_surrogate (add_surrogate s) = some s := by
  induction s with
  | nil => rfl
  | cons c s ih =>
    have hc := h c (List.mem_cons_self c s)
    have hs : ∀ x ∈ s, isScalarB x = true := fun x hx => h x (List.mem_cons_of_mem c hx)
    simp only [isScalarB, Bool.and_eq_true, Bool.not_eq_true', decide_eq_true_eq,
      isHighB, isLowB, Bool.and_eq_false_iff, decide_eq_false_iff_not, not_le] at hc
    rw [add_surrogate_cons]
    by_cases hastral : 0x10000 ≤ c ∧ c ≤ 0x10FFFF
    · rw [if_pos hastral]
      have hhi : isHighB (0xD800 + (c - 0x10000) / 0x400) = true := by
        simp only [isHighB, Bool.and_eq_true, decide_eq_true_eq]
        omega
      have hlo : isLowB (0xDC00 + (c - 0x10000) % 0x400) = true := by
        simp only [isLowB, Bool.and_eq_true, decide_eq_true_eq]
        omega
      have hdec : decodeSP (0xD800 + (c - 0x10000) / 0x400)
          (0xDC00 + (c - 0x10000) % 0x400) = c := by
        simp only [decodeSP]
        omega
      rw [surrogatePair, List.cons_append, List.cons_append, List.nil_append,
        del_surrogate.eq_def]
      simp [hhi, hlo, ih hs, hdec]
    · rw [if_neg hastral]
      have hlt : c < 0x10000 := by
        rcases hc with ⟨⟨hval, -⟩, -⟩
        omega
      have hnh : isHighB c = false := by
        simp only [isHighB, Bool.and_eq_false_iff, decide_eq_false_iff_not, not_le]
        omega
      have hnl : isLowB c = false := by
        rcases hc with ⟨-, hval⟩
        simp only [isLowB, Bool.and_eq_false_iff, decide_eq_false_iff_not, not_le]
        omega
      rw [List.cons_append, List.nil_append, del_surrogate.eq_def]
      simp [hnh, hnl, ih hs]

/-- Bounded-length helper for the lone-surrogate failure theorem. -/
theorem del_surrogate_lone_aux (n : Nat) :
    ∀ s : List Nat, s.length ≤ n → hasLoneSurrogateB s = true → del_surrogate s = none := by
  induction n with
  | zero =>
    intro s hs h
    have hnil : s = [] := List.eq_nil_of_length_eq_zero (Nat.le_zero.mp hs)
    subst hnil
    exact absurd h (by decide)
  | succ n ih =>
    intro s hs h
    cases s with
    | nil => exact absurd h (by decide)
    | cons c rest =>
      rw [hasLoneSurrogateB.eq_def] at h
      rw [del_surrogate.eq_def]
      by_cases hhi : isHighB c = true
      · simp only [hhi, if_true] at h ⊢
        cases rest with
        | nil => rfl
        | cons d rest' =>
          by_cases hlo : isLowB d = true
          · simp only [hlo, if_true] at h ⊢
            have hlen : rest'.length ≤ n := by
              simp only [List.length_cons] at hs
              omega
            rw [ih rest' hlen h]
            rfl
          · simp [hlo]
      · simp only [Bool.not_eq_true] at hhi
        simp only [hhi, Bool.false_eq_true, if_false] at h ⊢
        by_cases hlo : isLowB c = true
        · simp [hlo]
        · simp only [Bool.not_eq_true] at hlo
          simp only [hlo, Bool.false_eq_true, if_false] at h ⊢
          have hlen : rest.length ≤ n := by
            simp only [List.length_cons] at hs
            omega
          rw [ih rest hlen h]
          rfl

/-- A sequence with an unpairable surrogate makes del_surrogate fail. -/
theorem del_surrogate_lone (s : List Nat) (h : hasLoneSurrogateB s = true) :
    del_surrogate s = none :=
  del_surrogate_lone_aux s.length s (Nat.le_refl _) h

/-! ## Helper lemmas for slicing and escaping -/

theorem pyIdx_of_bounds (n : Nat) (i : Int) (h0 : 0 ≤ i) (h1 : i ≤ (n : Int)) :
    pyIdx n i = i.toNat := by
  unfold pyIdx
  rw [if_neg (by omega)]
  omega

theorem pySlice_eq_take_drop (s : List Nat) (a b : Int)
    (h0 : 0 ≤ a) (hab : a ≤ b) (hb : b ≤ (s.length : Int)) :
    pySlice s a b = (s.drop a.toNat).take (b.toNat - a.toNat) := by
  unfold pySlice
  rw [pyIdx_of_bounds s.length a h0 (le_trans hab hb), pyIdx_of_bounds s.length b (le_trans h0 hab) hb,
    List.drop_take]

theorem pySliceFrom_eq_drop (s : List Nat) (a : Int)
    (h0 : 0 ≤ a) (ha : a ≤ (s.length : Int)) :
    pySliceFrom s a = s.drop a.toNat := by
  unfold pySliceFrom
  rw [pyIdx_of_bounds s.length a h0 ha]

theorem mem_pySlice (s : List Nat) (a b : Int) (c : Nat) (h : c ∈ pySlice s a b) : c ∈ s := by
  unfold pySlice at h
  exact List.take_subset _ _ (List.drop_subset _ _ h)

theorem mem_pySliceFrom (s : List Nat) (a : Int) (c : Nat) (h : c ∈ pySliceFrom s a) : c ∈ s := by
  unfold pySliceFrom at h
  exact List.drop_subset _ _ h

theorem escapeChar_mem (c d : Nat) (h : d ∈ escapeChar c) : d = c ∨ d < 128 := by
  unfold escapeChar at h
  split_ifs at h <;> simp_all <;> omega

theorem htmlEscape_append (a b : List Nat) :
    htmlEscape (a ++ b) = htmlEscape a ++ htmlEscape b := by
  simp [htmlEscape]

theorem mem_htmlEscape (s : List Nat) (d : Nat) (h : d ∈ htmlEscape s) :
    d ∈ s ∨ d < 128 := by
  unfold htmlEscape at h
  rw [List.mem_flatten] at h
  obtain ⟨l, hl, hd⟩ := h
  rw [List.mem_map] at hl
  obtain ⟨c, hc, rfl⟩ := hl
  rcases escapeChar_mem c d hd with rfl | hlt
  · exact Or.inl hc
  · exact Or.inr hlt

/-! ## Claim C1 -/

/-- C1.  Round-trip identity for plain text: signal_to_matrix on a body
with no mentions yields content with the body unchanged, no format and no
formatted body, and matrix_to_signal on that content returns the body with
an empty mention list. -/
theorem C1_roundtrip_plain_text (gp : Nat → Puppet)
    (parse : List Nat → SignalFormatString) (body : List Nat) :
    signal_to_matrix gp ⟨body, []⟩
      = some ⟨MessageType.text, body, none, none⟩
    ∧ matrix_to_signal parse ⟨MessageType.text, body, none, none⟩
      = (⟨MessageType.text, body, none, none⟩, some (body, [])) := by
  constructor
  · rfl
  · rfl

/-! ## Claim C2 -/

/-- C2.  del_surrogate is the exact inverse of add_surrogate on well-formed
strings (every code point a Unicode scalar value); add_surrogate leaves
each character below 0x10000 unchanged and replaces each astral code point
by two code units that are a high and a low surrogate decoding back to it. -/
theorem C2_codec_inverse :
    (∀ s : List Nat, (∀ c ∈ s, isScalarB c = true) →
      del_surrogate (add_surrogate s) = some s)
    ∧ (∀ c : Nat, c < 0x10000 → add_surrogate [c] = [c])
    ∧ (∀ c : Nat, 0x10000 ≤ c → c ≤ 0x10FFFF →
        ∃ h l, add_surrogate [c] = [h, l] ∧ isHighB h = true ∧ isLowB l = true ∧
          decodeSP h l = c) := by
  refine ⟨del_add_surrogate, ?_, ?_⟩
  · intro c hc
    rw [show [c] = c :: ([] : List Nat) from rfl, add_surrogate_cons, if_neg (by omega)]
    rfl
  · intro c h1 h2
    refine ⟨0xD800 + (c - 0x10000) / 0x400, 0xDC00 + (c - 0x10000) % 0x400, ?_, ?_, ?_, ?_⟩
    · rw [show [c] = c :: ([] : List Nat) from rfl, add_surrogate_cons, if_pos ⟨h1, h2⟩]
      rfl
    · simp only [isHighB, Bool.and_eq_true, decide_eq_true_eq]
      omega
    · simp only [isLowB, Bool.and_eq_true, decide_eq_true_eq]
      omega
    · simp only [decodeSP]
      omega

/-- Witness for C2 at a concrete input with an astral code point. -/
theorem C2_codec_inverse_witness :
    (∀ c ∈ [104, 128512, 105], isScalarB c = true)
    ∧ del_surrogate (add_surrogate [104, 128512, 105]) = some [104, 128512, 105] :=
  ⟨by decide, C2_codec_inverse.1 [104, 128512, 105] (by decide)⟩

/-! ## Claim C5 -/

/-- C5.  A unit sequence containing a surrogate that the left-to-right
utf-16 pairing cannot pair makes del_surrogate fail with a decoding error
(none) instead of dropping or passing the unit through. -/
theorem C5_lone_surrogate_error (us : List Nat) (h : hasLoneSurrogateB us = true) :
    del_surrogate us = none :=
  del_surrogate_lone us h

/-- Witness for C5: a lone high surrogate. -/
theorem C5_lone_surrogate_error_witness :
    hasLoneSurrogateB [55296] = true ∧ del_surrogate [55296] = none :=
  ⟨by decide, C5_lone_surrogate_error [55296] (by decide)⟩

/-! ## Claim C9 -/

/-- C9.  A user pill whose id resolves to neither a linked bridge user nor
a puppet leaves the message unchanged (text intact, no entity appended);
a successful resolution appends one mention entity at offset 0 spanning
the whole current text, with no text change. -/
theorem C9_unresolvable_pill (gu : Nat → Option User) (gpm : Nat → Option Puppet)
    (msg : SignalFormatString) (uid : Nat) :
    ((gu uid).bind User.uuid = none → gpm uid = none →
      user_pill_to_fstring gu gpm msg uid = msg)
    ∧ (∀ uu, (gu uid).bind User.uuid = some uu →
        user_pill_to_fstring gu gpm msg uid =
          { msg with entities := msg.entities ++ [⟨uu, 0, (msg.text.length : Int)⟩] })
    ∧ (∀ p, (gu uid).bind User.uuid = none → gpm uid = some p →
        user_pill_to_fstring gu gpm msg uid =
          { msg with entities := msg.entities ++ [⟨p.uuid, 0, (msg.text.length : Int)⟩] }) := by
  refine ⟨?_, ?_, ?_⟩
  · intro h1 h2
    simp [user_pill_to_fstring, h1, h2]
  · intro uu h1
    simp [user_pill_to_fstring, h1, SignalFormatString.format]
  · intro p h1 h2
    simp [user_pill_to_fstring, h1, h2, SignalFormatString.format]

/-- Witness for C9: no bridge user and no puppet resolve, the message is
returned untouched. -/
theorem C9_unresolvable_pill_witness :
    user_pill_to_fstring (fun _ => none) (fun _ => none) ⟨[104, 105], []⟩ 7
      = ⟨[104, 105], []⟩ :=
  (C9_unresolvable_pill (fun _ => none) (fun _ => none) ⟨[104, 105], []⟩ 7).1 rfl rfl

/-! ## Claim C3 -/

theorem format_wrapKind (fs : SignalFormatString) (k : WrapKind) :
    fs.format k.toArg = wrapTail fs k.preStr k.sufStr := by
  cases k <;> rfl

theorem wrapTail_entities (fs : SignalFormatString) (p s : List Nat) :
    (wrapTail fs p s).entities
      = fs.entities.map (fun e => { e with start := e.start + (p.length : Int) }) := rfl

theorem wrapTail_text (fs : SignalFormatString) (p s : List Nat) :
    (wrapTail fs p s).text = p ++ fs.text ++ s := rfl

/-- C3.  Nested wrapping markup: after any sequence of wrapping format
calls every already-attached mention entity sits at its original offset
plus the sum of the applied prefix lengths, and a single wrapping format
call rebuilds the text as prefix ++ text ++ suffix for that kind. -/
theorem C3_wrap_offset_invariant :
    (∀ (fs : SignalFormatString) (ks : List WrapKind),
      (ks.foldl (fun s k => s.format k.toArg) fs).entities
        = fs.entities.map (fun e =>
            { e with start := e.start + (ks.map (fun k => (k.preStr.length : Int))).sum }))
    ∧ (∀ (fs : SignalFormatString) (k : WrapKind),
      (fs.format k.toArg).text = k.preStr ++ fs.text ++ k.sufStr) := by
  constructor
  · intro fs ks
    induction ks generalizing fs with
    | nil =>
      simp only [List.foldl_nil, List.map_nil, List.sum_nil]
      have h : (fun e : MentionEntity => { e with start := e.start + 0 }) = fun e => e := by
        funext e
        simp
      rw [h, List.map_id']
    | cons k ks ih =>
      rw [List.foldl_cons, format_wrapKind, ih, wrapTail_entities, List.map_map]
      simp only [List.map_cons, List.sum_cons]
      congr 1
      funext e
      simp only [Function.comp]
      congr 1
      omega
  · intro fs k
    rw [format_wrapKind, wrapTail_text]

/-! ## Claim C4 -/

/-- The mention loop, followed by the tail slice, produces exactly the
reference substitution when the mentions are sorted, non-overlapping and
in bounds. -/
theorem chunksLoop_subst (gp : Nat → Puppet) (s : List Nat) (ms : List Mention) :
    ∀ off : Int, 0 ≤ off → off ≤ (s.length : Int) →
      mentionsWF s.length off ms = true →
      (chunksLoop gp s ms off).1 ++ pySliceFrom s (chunksLoop gp s ms off).2.2
        = substPlain gp s off ms
      ∧ (chunksLoop gp s ms off).2.1
          ++ htmlEscape (pySliceFrom s (chunksLoop gp s ms off).2.2)
        = substHtml gp s off ms := by
  induction ms with
  | nil =>
    intro off h0 hn _
    constructor
    · show ([] : List Nat) ++ pySliceFrom s off = substPlain gp s off []
      rw [List.nil_append, pySliceFrom_eq_drop s off h0 hn]
      simp [substPlain]
    · show ([] : List Nat) ++ htmlEscape (pySliceFrom s off) = substHtml gp s off []
      rw [List.nil_append, pySliceFrom_eq_drop s off h0 hn]
      simp [substHtml]
  | cons m rest ih =>
    intro off h0 hn hwf
    rw [mentionsWF] at hwf
    simp only [Bool.and_eq_true, decide_eq_true_eq] at hwf
    obtain ⟨⟨⟨h1, h2⟩, h3⟩, h4⟩ := hwf
    have hs0 : (0 : Int) ≤ m.start + m.length := by omega
    have hihe := ih (m.start + m.length) hs0 h3 h4
    have hb : pySlice s off m.start = (s.drop off.toNat).take (m.start.toNat - off.toNat) :=
      pySlice_eq_take_drop s off m.start h0 h1 (by omega)
    constructor
    · simp only [chunksLoop, substPlain, List.append_assoc]
      rw [hb, hihe.1]
    · simp only [chunksLoop, substHtml, List.append_assoc]
      rw [hb, hihe.2]

/-- C4.  For sorted, non-overlapping, in-bounds mentions, signal_to_matrix
replaces each mention span by the expanded resolved display name in the
plain body and by the unescaped matrix.to anchor in the HTML body, keeping
the text outside the spans verbatim (html-escaped on the HTML side). -/
theorem C4_mention_substitution (gp : Nat → Puppet) (body : List Nat)
    (m : Mention) (ms : List Mention)
    (hwf : mentionsWF (add_surrogate body).length 0 (m :: ms) = true) :
    signal_to_matrix gp ⟨body, m :: ms⟩ =
      match del_surrogate (substPlain gp (add_surrogate body) 0 (m :: ms)),
            del_surrogate (substHtml gp (add_surrogate body) 0 (m :: ms)) with
      | some b, some fb => some ⟨MessageType.text, b, some Format.html, some fb⟩
      | _, _ => none := by
  have h := chunksLoop_subst gp (add_surrogate body) (m :: ms) 0 (by omega)
    (by exact_mod_cast Nat.zero_le _) hwf
  simp only [signal_to_matrix]
  rw [h.1, h.2]

set_option maxRecDepth 8000 in
/-- Witness for C4 at the spec example: Hi @A and @B with two length-2
mentions at offsets 3 and 10. -/
theorem C4_mention_substitution_witness :
    mentionsWF (add_surrogate [72, 105, 32, 64, 65, 32, 97, 110, 100, 32, 64, 66]).length 0
        [⟨1, 3, 2⟩, ⟨2, 10, 2⟩] = true
    ∧ signal_to_matrix
        (fun u => if u = 1 then ⟨1, some [80, 49], [109, 120, 49]⟩
                  else ⟨2, some [80, 50], [109, 120, 50]⟩)
        ⟨[72, 105, 32, 64, 65, 32, 97, 110, 100, 32, 64, 66], [⟨1, 3, 2⟩, ⟨2, 10, 2⟩]⟩
      = some ⟨MessageType.text,
          [72, 105, 32, 80, 49, 32, 97, 110, 100, 32, 80, 50],
          some Format.html,
          some ([72, 105, 32] ++ anchorChunk ⟨1, some [80, 49], [109, 120, 49]⟩ [80, 49]
            ++ ([32, 97, 110, 100, 32]
              ++ anchorChunk ⟨2, some [80, 50], [109, 120, 50]⟩ [80, 50]))⟩ := by
  refine ⟨by decide, ?_⟩
  rw [C4_mention_substitution
    (fun u => if u = 1 then ⟨1, some [80, 49], [109, 120, 49]⟩
              else ⟨2, some [80, 50], [109, 120, 50]⟩)
    [72, 105, 32, 64, 65, 32, 97, 110, 100, 32, 64, 66]
    ⟨1, 3, 2⟩ [⟨2, 10, 2⟩] (by decide)]
  decide

/-! ## Claim C6 -/

/-- C6 counterexample: a mention whose span ends 7 units past the end of
the 3-unit body abc.  signal_to_matrix returns a result (the slices clamp
silently) instead of propagating an error. -/
theorem C6_counterexample :
    ((3 : Int) + 7 > ((add_surrogate [97, 98, 99]).length : Int))
    ∧ signal_to_matrix (fun _ => ⟨1, some [78], [109]⟩) ⟨[97, 98, 99], [⟨1, 3, 7⟩]⟩
        = some ⟨MessageType.text, [97, 98, 99, 78], some Format.html,
            some (htmlEscape [97, 98, 99] ++ anchorChunk ⟨1, some [78], [109]⟩ [78])⟩ := by
  constructor
  · decide
  · decide

theorem low_range_nosurr (c : Nat) (h : c < 0xD800) :
    isHighB c = false ∧ isLowB c = false := by
  constructor
  · simp only [isHighB, Bool.and_eq_false_iff, decide_eq_false_iff_not, not_le]
    omega
  · simp only [isLowB, Bool.and_eq_false_iff, decide_eq_false_iff_not, not_le]
    omega

theorem htmlEscape_nosurr (s : List Nat)
    (h : ∀ c ∈ s, isHighB c = false ∧ isLowB c = false) :
    ∀ c ∈ htmlEscape s, isHighB c = false ∧ isLowB c = false := by
  intro d hd
  rcases mem_htmlEscape s d hd with h1 | h2
  · exact h d h1
  · exact low_range_nosurr d (by omega)

theorem anchorChunk_nosurr (p : Puppet) (name : List Nat)
    (hmx : ∀ c ∈ p.mxid, isHighB c = false ∧ isLowB c = false)
    (hname : ∀ c ∈ name, isHighB c = false ∧ isLowB c = false) :
    ∀ c ∈ anchorChunk p name, isHighB c = false ∧ isLowB c = false := by
  have hopen : ∀ x ∈ anchorOpen, x < 128 := by decide
  have hmid : ∀ x ∈ anchorMid, x < 128 := by decide
  have hclose : ∀ x ∈ anchorClose, x < 128 := by decide
  intro c hc
  unfold anchorChunk at hc
  simp only [List.append_assoc, List.mem_append] at hc
  rcases hc with hc | hc | hc | hc | hc
  · have := hopen c hc
    exact low_range_nosurr c (by omega)
  · exact hmx c hc
  · have := hmid c hc
    exact low_range_nosurr c (by omega)
  · exact hname c hc
  · have := hclose c hc
    exact low_range_nosurr c (by omega)

/-- With a surrogate-free working body and surrogate-free puppet names and
ids, no chunk produced by the mention loop contains a surrogate, whatever
the mention offsets are. -/
theorem chunksLoop_nosurr (gp : Nat → Puppet) (s : List Nat)
    (hbody : ∀ c ∈ s, isHighB c = false ∧ isLowB c = false) :
    ∀ ms : List Mention,
      (∀ m ∈ ms,
        (∀ c ∈ pickName (gp m.uuid), c < 0x10000 ∧ isHighB c = false ∧ isLowB c = false)
        ∧ (∀ c ∈ (gp m.uuid).mxid, isHighB c = false ∧ isLowB c = false)) →
      ∀ off : Int,
      (∀ c ∈ (chunksLoop gp s ms off).1, isHighB c = false ∧ isLowB c = false)
      ∧ (∀ c ∈ (chunksLoop gp s ms off).2.1, isHighB c = false ∧ isLowB c = false) := by
  intro ms
  induction ms with
  | nil =>
    intro _ off
    constructor
    · intro c hc
      simp [chunksLoop] at hc
    · intro c hc
      simp [chunksLoop] at hc
  | cons m rest ih =>
    intro hms off
    have hm := hms m (List.mem_cons_self m rest)
    have hrest : ∀ x ∈ rest, _ := fun x hx => hms x (List.mem_cons_of_mem m hx)
    have hname : add_surrogate (pickName (gp m.uuid)) = pickName (gp m.uuid) :=
      add_surrogate_bmp _ (fun c hc => ((hm.1 c hc).1))
    have hnames : ∀ c ∈ add_surrogate (pickName (gp m.uuid)),
        isHighB c = false ∧ isLowB c = false := by
      rw [hname]
      exact fun c hc => (hm.1 c hc).2
    have hbefore : ∀ c ∈ pySlice s off m.start, isHighB c = false ∧ isLowB c = false :=
      fun c hc => hbody c (mem_pySlice s off m.start c hc)
    have hih := ih hrest (m.start + m.length)
    constructor
    · show ∀ c ∈ pySlice s off m.start ++ add_surrogate (pickName (gp m.uuid))
          ++ (chunksLoop gp s rest (m.start + m.length)).1, _
      intro c hc
      simp only [List.append_assoc, List.mem_append] at hc
      rcases hc with hc | hc | hc
      · exact hbefore c hc
      · exact hnames c hc
      · exact hih.1 c hc
    · show ∀ c ∈ htmlEscape (pySlice s off m.start)
          ++ anchorChunk (gp m.uuid) (add_surrogate (pickName (gp m.uuid)))
          ++ (chunksLoop gp s rest (m.start + m.length)).2.1, _
      intro c hc
      simp only [List.append_assoc, List.mem_append] at hc
      rcases hc with hc | hc | hc
      · exact htmlEscape_nosurr _ hbefore c hc
      · exact anchorChunk_nosurr (gp m.uuid) _ hm.2 hnames c hc
      · exact hih.2 c hc

/-- C6 amended.  signal_to_matrix never validates mention offsets: slices
clamp silently, and whenever the body, the resolved names and the puppet
matrix ids stay inside the surrogate-free BMP it returns a result for any
mention offsets whatsoever; a failure can only come from a slice boundary
splitting a surrogate pair. -/
theorem C6_no_bounds_error (gp : Nat → Puppet) (body : List Nat) (ms : List Mention)
    (hbody : ∀ c ∈ body, c < 0x10000 ∧ isHighB c = false ∧ isLowB c = false)
    (hnames : ∀ m ∈ ms,
      (∀ c ∈ pickName (gp m.uuid), c < 0x10000 ∧ isHighB c = false ∧ isLowB c = false)
      ∧ (∀ c ∈ (gp m.uuid).mxid, isHighB c = false ∧ isLowB c = false)) :
    ∃ content, signal_to_matrix gp ⟨body, ms⟩ = some content := by
  cases ms with
  | nil => exact ⟨_, rfl⟩
  | cons m rest =>
    have hsmem : ∀ c ∈ add_surrogate body, isHighB c = false ∧ isLowB c = false := by
      rw [add_surrogate_bmp body (fun c hc => (hbody c hc).1)]
      exact fun c hc => (hbody c hc).2
    have hcl := chunksLoop_nosurr gp (add_surrogate body) hsmem (m :: rest) hnames 0
    have hend : ∀ c ∈ pySliceFrom (add_surrogate body)
        (chunksLoop gp (add_surrogate body) (m :: rest) 0).2.2,
        isHighB c = false ∧ isLowB c = false :=
      fun c hc => hsmem c (mem_pySliceFrom _ _ c hc)
    have h1 := del_surrogate_nosurr
      ((chunksLoop gp (add_surrogate body) (m :: rest) 0).1
        ++ pySliceFrom (add_surrogate body)
            (chunksLoop gp (add_surrogate body) (m :: rest) 0).2.2)
      (by
        intro c hc
        rcases List.mem_append.mp hc with hc | hc
        · exact hcl.1 c hc
        · exact hend c hc)
    have h2 := del_surrogate_nosurr
      ((chunksLoop gp (add_surrogate body) (m :: rest) 0).2.1
        ++ htmlEscape (pySliceFrom (add_surrogate body)
            (chunksLoop gp (add_surrogate body) (m :: rest) 0).2.2))
      (by
        intro c hc
        rcases List.mem_append.mp hc with hc | hc
        · exact hcl.2 c hc
        · exact htmlEscape_nosurr _ hend c hc)
    exact ⟨_, by
      simp only [signal_to_matrix]
      rw [h1, h2]⟩

/-- Witness for C6 amended: a negative-length mention starting past the
end of the body still yields a result. -/
theorem C6_no_bounds_error_witness :
    ∃ content, signal_to_matrix (fun _ => ⟨1, some [78], [109]⟩)
      ⟨[97, 98, 99], [⟨1, 5, -3⟩]⟩ = some content :=
  C6_no_bounds_error (fun _ => ⟨1, some [78], [109]⟩) [97, 98, 99] [⟨1, 5, -3⟩]
    (by decide) (by decide)

/-! ## Claim C7 -/

theorem splitNLTexts_nil : splitNLTexts [] = [[]] := rfl

theorem splitNLTexts_cons (c : Nat) (rest : List Nat) :
    splitNLTexts (c :: rest) =
      if c = 10 then [] :: splitNLTexts rest
      else
        match splitNLTexts rest with
        | s :: ss => (c :: s) :: ss
        | [] => [[c]] := rfl

theorem splitNLTexts_ne_nil (t : List Nat) : splitNLTexts t ≠ [] := by
  cases t with
  | nil => simp [splitNLTexts_nil]
  | cons c rest =>
    rw [splitNLTexts_cons]
    by_cases h : c = 10
    · simp [h]
    · simp only [h, if_false]
      cases splitNLTexts rest <;> simp

theorem no_nl_split (t : List Nat) (h : (10 : Nat) ∉ t) : splitNLTexts t = [t] := by
  induction t with
  | nil => rfl
  | cons c r ih =>
    have hc : c ≠ 10 := fun hh => h (hh ▸ List.mem_cons_self c r)
    have hr : (10 : Nat) ∉ r := fun hm => h (List.mem_cons_of_mem c hm)
    rw [splitNLTexts_cons, if_neg hc, ih hr]

theorem joinTexts_single (t : List Nat) : joinTexts [t] = t := rfl

theorem joinTexts_pair (t t2 : List Nat) (ts : List (List Nat)) :
    joinTexts (t :: t2 :: ts) = t ++ 10 :: joinTexts (t2 :: ts) := rfl

theorem qJoinTexts_single (t : List Nat) : qJoinTexts [t] = t := rfl

theorem qJoinTexts_pair (t t2 : List Nat) (ts : List (List Nat)) :
    qJoinTexts (t :: t2 :: ts) = t ++ 10 :: 62 :: 32 :: qJoinTexts (t2 :: ts) := rfl

theorem quoteBody_cons (c : Nat) (r : List Nat) :
    quoteBody (c :: r) = (if c = 10 then [10, 62, 32] else [c]) ++ quoteBody r := by
  simp [quoteBody]

theorem joinTexts_quote_parts (ps : List (List Nat)) (hps : ps ≠ []) :
    joinTexts (ps.map (fun u => [62, 32] ++ u)) = [62, 32] ++ qJoinTexts ps := by
  induction ps with
  | nil => exact absurd rfl hps
  | cons t ts ih =>
    cases ts with
    | nil => rfl
    | cons t2 ts2 =>
      rw [List.map_cons, List.map_cons, joinTexts_pair,
        ← List.map_cons (fun u => [62, 32] ++ u) t2 ts2, ih (by simp), qJoinTexts_pair]
      simp

theorem qJoin_split (t : List Nat) : qJoinTexts (splitNLTexts t) = quoteBody t := by
  induction t with
  | nil => rfl
  | cons c r ih =>
    obtain ⟨s, ss, heq⟩ : ∃ s ss, splitNLTexts r = s :: ss := by
      cases h : splitNLTexts r with
      | nil => exact absurd h (splitNLTexts_ne_nil r)
      | cons s ss => exact ⟨s, ss, rfl⟩
    rw [heq] at ih
    by_cases hc : c = 10
    · subst hc
      rw [splitNLTexts_cons, if_pos rfl, heq, qJoinTexts_pair, ih, quoteBody_cons, if_pos rfl]
      rfl
    · rw [splitNLTexts_cons, if_neg hc, heq]
      cases ss with
      | nil =>
        show qJoinTexts [c :: s] = quoteBody (c :: r)
        rw [qJoinTexts_single] at ih
        rw [qJoinTexts_single, quoteBody_cons, if_neg hc, ih]
        rfl
      | cons s2 ss2 =>
        show qJoinTexts ((c :: s) :: s2 :: ss2) = quoteBody (c :: r)
        rw [qJoinTexts_pair] at ih
        rw [qJoinTexts_pair, quoteBody_cons, if_neg hc, ← ih]
        simp

theorem quote_join (t : List Nat) :
    joinTexts ((splitNLTexts t).map (fun u => [62, 32] ++ u)) = [62, 32] ++ quoteBody t := by
  rw [joinTexts_quote_parts (splitNLTexts t) (splitNLTexts_ne_nil t), qJoin_split]

theorem splitNL_go_texts (fs : SignalFormatString) :
    ∀ (ts : List (List Nat)) (base : Int),
      (SignalFormatString.splitNL.go fs ts base).map SignalFormatString.text = ts := by
  intro ts
  induction ts with
  | nil => intro base; rfl
  | cons t ts ih =>
    intro base
    cases ts with
    | nil => rfl
    | cons t2 ts2 =>
      show (⟨t, segEntities fs.entities base t.length false⟩ ::
          SignalFormatString.splitNL.go fs (t2 :: ts2) (base + (t.length : Int) + 1)).map
            SignalFormatString.text = t :: t2 :: ts2
      rw [List.map_cons, ih]

theorem joinNL_text (ps : List SignalFormatString) :
    (SignalFormatString.joinNL ps).text = joinTexts (ps.map SignalFormatString.text) := by
  induction ps with
  | nil => rfl
  | cons p ps ih =>
    cases ps with
    | nil => rfl
    | cons p2 ps2 =>
      show p.text ++ 10 :: (SignalFormatString.joinNL (p2 :: ps2)).text = _
      rw [List.map_cons, List.map_cons, joinTexts_pair,
        ← List.map_cons SignalFormatString.text p2 ps2, ← ih]

theorem format_blockquote_text (fs : SignalFormatString) :
    (fs.format EntityTypeArg.blockquote).text = [62, 32] ++ quoteBody (pyStrip fs.text) := by
  show (SignalFormatString.joinNL ((fs.trim.splitNL).map (fun c => c.prepend [62, 32]))).text = _
  rw [joinNL_text, List.map_map]
  have hcomp : (SignalFormatString.text ∘ fun c => c.prepend [62, 32])
      = fun c : SignalFormatString => [62, 32] ++ c.text := rfl
  rw [hcomp]
  have h2 : (fs.trim.splitNL).map (fun c : SignalFormatString => [62, 32] ++ c.text)
      = ((fs.trim.splitNL).map SignalFormatString.text).map (fun u => [62, 32] ++ u) := by
    rw [List.map_map]
    rfl
  have h3 : (fs.trim.splitNL).map SignalFormatString.text = splitNLTexts fs.trim.text :=
    splitNL_go_texts fs.trim (splitNLTexts fs.trim.text) 0
  rw [h2, h3, show fs.trim.text = pyStrip fs.text from rfl, quote_join]

theorem filterMap_some_eq {α : Type} (l : List α) (f : α → Option α)
    (h : ∀ x ∈ l, f x = some x) : l.filterMap f = l := by
  induction l with
  | nil => rfl
  | cons x l ih =>
    rw [List.filterMap_cons, h x (List.mem_cons_self x l),
      ih (fun y hy => h y (List.mem_cons_of_mem x hy))]

theorem trim_eq_self (fs : SignalFormatString)
    (h1 : pyStrip fs.text = fs.text)
    (h3 : ∀ e ∈ fs.entities, 0 ≤ e.start ∧ 0 ≤ e.length
        ∧ e.start + e.length ≤ (fs.text.length : Int)) :
    fs.trim = ⟨fs.text, fs.entities⟩ := by
  have hlen : (fs.text.dropWhile (fun c => isWspB c)).length = fs.text.length := by
    have ha : (pyStrip fs.text).length ≤ (fs.text.dropWhile (fun c => isWspB c)).length := by
      unfold pyStrip
      rw [List.length_reverse]
      calc ((fs.text.dropWhile (fun c => isWspB c)).reverse.dropWhile
              (fun c => isWspB c)).length
          ≤ (fs.text.dropWhile (fun c => isWspB c)).reverse.length :=
            (List.dropWhile_suffix _).length_le
        _ = _ := List.length_reverse _
    have hb : (fs.text.dropWhile (fun c => isWspB c)).length ≤ fs.text.length :=
      (List.dropWhile_suffix _).length_le
    rw [h1] at ha
    omega
  have hdw : fs.text.dropWhile (fun c => isWspB c) = fs.text :=
    List.IsSuffix.eq_of_length (List.dropWhile_suffix _) hlen
  have htext : fs.trim.text = fs.text := by
    rw [show fs.trim.text = pyStrip fs.text from rfl, h1]
  have hents : fs.trim.entities = fs.entities := by
    show fs.entities.filterMap _ = fs.entities
    apply filterMap_some_eq
    intro e he
    obtain ⟨he1, he2, he3⟩ := h3 e he
    rw [hdw, h1, Nat.sub_self]
    rw [if_pos ⟨by omega, by omega⟩]
    simp
  exact SignalFormatString.ext htext hents

theorem format_blockquote_entities (fs : SignalFormatString)
    (h1 : pyStrip fs.text = fs.text) (h2 : (10 : Nat) ∉ fs.text)
    (h3 : ∀ e ∈ fs.entities, 0 ≤ e.start ∧ 0 ≤ e.length
        ∧ e.start + e.length ≤ (fs.text.length : Int)) :
    fs.format EntityTypeArg.blockquote
      = ⟨[62, 32] ++ fs.text, fs.entities.map (fun e => { e with start := e.start + 2 })⟩ := by
  show SignalFormatString.joinNL ((fs.trim.splitNL).map (fun c => c.prepend [62, 32])) = _
  rw [trim_eq_self fs h1 h3]
  have hsplit : SignalFormatString.splitNL ⟨fs.text, fs.entities⟩ = [⟨fs.text, fs.entities⟩] := by
    show SignalFormatString.splitNL.go ⟨fs.text, fs.entities⟩ (splitNLTexts fs.text) 0 = _
    rw [no_nl_split fs.text h2]
    show [(⟨fs.text, segEntities fs.entities 0 fs.text.length true⟩ : SignalFormatString)]
      = [(⟨fs.text, fs.entities⟩ : SignalFormatString)]
    have hseg : segEntities fs.entities 0 fs.text.length true = fs.entities := by
      apply filterMap_some_eq
      intro e he
      obtain ⟨he1, he2, he3⟩ := h3 e he
      rw [if_pos ⟨he1, Or.inl (by omega)⟩]
      rw [show e.start - 0 = e.start from by omega, min_eq_left (by omega)]
    rw [hseg]
  rw [hsplit]
  simp only [List.map_cons, List.map_nil]
  show (⟨fs.text, fs.entities⟩ : SignalFormatString).prepend [62, 32] = _
  rfl

/-- C7 counterexample: on the text consisting of a space then the letter
a, the blockquote rule trims the leading space first, so the result is not
the original text with the quote marker inserted. -/
theorem C7_counterexample :
    (SignalFormatString.format ⟨[32, 97], []⟩ EntityTypeArg.blockquote).text = [62, 32, 97]
    ∧ (SignalFormatString.format ⟨[32, 97], []⟩ EntityTypeArg.blockquote).text
        ≠ quoteInsert [32, 97] := by
  constructor
  · decide
  · decide

/-- C7 amended.  The blockquote branch first trims the text, then splits
on newlines, prefixes every line with the quote marker and rejoins: the
resulting text is the trimmed text with the marker at the start and after
every newline; on a single-line text without surrounding whitespace every
in-bounds entity offset shifts by the marker length 2. -/
theorem C7_blockquote_after_trim (fs : SignalFormatString) :
    (fs.format EntityTypeArg.blockquote).text = quoteInsert (pyStrip fs.text)
    ∧ (pyStrip fs.text = fs.text → (10 : Nat) ∉ fs.text →
        (∀ e ∈ fs.entities, 0 ≤ e.start ∧ 0 ≤ e.length
          ∧ e.start + e.length ≤ (fs.text.length : Int)) →
        (fs.format EntityTypeArg.blockquote).entities
          = fs.entities.map (fun e => { e with start := e.start + 2 })) := by
  constructor
  · rw [format_blockquote_text]
    rfl
  · intro h1 h2 h3
    rw [format_blockquote_entities fs h1 h2 h3]

/-- Witness for C7 amended on the two-letter text hi with one entity
spanning it. -/
theorem C7_blockquote_after_trim_witness :
    (SignalFormatString.format ⟨[104, 105], [⟨5, 0, 2⟩]⟩ EntityTypeArg.blockquote).text
        = quoteInsert (pyStrip [104, 105])
    ∧ (SignalFormatString.format ⟨[104, 105], [⟨5, 0, 2⟩]⟩ EntityTypeArg.blockquote).entities
        = [⟨5, 2, 2⟩] := by
  have h := C7_blockquote_after_trim ⟨[104, 105], [⟨5, 0, 2⟩]⟩
  refine ⟨h.1, ?_⟩
  rw [h.2 (by decide) (by decide) (by decide)]
  decide

/-! ## Claim C8 -/

/-- C8 counterexample: an emote message whose formatted body is present
but empty keeps it unprefixed (Python truthiness skips the empty string),
while the claim would demand the action marker. -/
theorem C8_counterexample :
    (matrix_to_signal (fun t => ⟨t, []⟩)
        ⟨MessageType.emote, [119, 97, 118, 101, 115], none, some []⟩).1.formatted_body
      = some []
    ∧ some ([] : List Nat) ≠ some (meTag ++ ([] : List Nat)) := by
  constructor
  · decide
  · decide

/-- C8 amended.  For an emote message matrix_to_signal prefixes the action
marker to the plain body always, and to the formatted body exactly when a
non-empty one is present (an empty formatted body stays unchanged); the
markup parser then receives the already prefixed formatted body.  A
non-emote message gets no prefix. -/
theorem C8_emote_prefixing (parse : List Nat → SignalFormatString)
    (content : TextMessageEventContent) :
    (content.msgtype = MessageType.emote →
      (matrix_to_signal parse content).1.body = meTag ++ content.body
      ∧ (∀ fb, content.formatted_body = some fb → fb ≠ [] →
          (matrix_to_signal parse content).1.formatted_body = some (meTag ++ fb))
      ∧ (content.formatted_body = some [] →
          (matrix_to_signal parse content).1.formatted_body = some [])
      ∧ (∀ fb, content.formatted_body = some fb → fb ≠ [] →
          content.format = some Format.html →
          (matrix_to_signal parse content).2
            = (del_surrogate (parse (add_surrogate (meTag ++ fb))).text).map
                (fun t => (t, (parse (add_surrogate (meTag ++ fb))).entities))))
    ∧ (content.msgtype ≠ MessageType.emote → (matrix_to_signal parse content).1 = content) := by
  constructor
  · intro hmt
    refine ⟨?_, ?_, ?_, ?_⟩
    · simp [matrix_to_signal, hmt]
    · intro fb hfb hne
      simp [matrix_to_signal, hmt, hfb, hne]
    · intro hfb
      simp [matrix_to_signal, hmt, hfb]
    · intro fb hfb hne hfmt
      simp [matrix_to_signal, hmt, hfb, hne, hfmt]
  · intro hmt
    simp [matrix_to_signal, hmt]

/-- Witness for C8 amended: emote with body waves and a non-empty
formatted body, both prefixed with the action marker. -/
theorem C8_emote_prefixing_witness :
    (matrix_to_signal (fun t => ⟨t, []⟩)
        ⟨MessageType.emote, [119, 97, 118, 101, 115], some Format.html,
          some [60, 98, 62, 119, 60, 47, 98, 62]⟩).1.body
      = meTag ++ [119, 97, 118, 101, 115]
    ∧ (matrix_to_signal (fun t => ⟨t, []⟩)
        ⟨MessageType.emote, [119, 97, 118, 101, 115], some Format.html,
          some [60, 98, 62, 119, 60, 47, 98, 62]⟩).1.formatted_body
      = some (meTag ++ [60, 98, 62, 119, 60, 47, 98, 62]) := by
  have h := (C8_emote_prefixing (fun t => ⟨t, []⟩)
    ⟨MessageType.emote, [119, 97, 118, 101, 115], some Format.html,
      some [60, 98, 62, 119, 60, 47, 98, 62]⟩).1 rfl
  exact ⟨h.1, h.2.1 [60, 98, 62, 119, 60, 47, 98, 62] rfl (by decide)⟩

/-! ## Claim C10 -/

/-- C10 counterexample: an emote content with an empty formatted body is
mutated on the plain body but its formatted body is not prefixed, against
the claim's likewise-when-present clause. -/
theorem C10_counterexample :
    (matrix_to_signal (fun t => ⟨t, []⟩)
        ⟨MessageType.emote, [120], none, some []⟩).1.formatted_body = some []
    ∧ some ([] : List Nat) ≠ some (meTag ++ ([] : List Nat)) := by
  constructor
  · decide
  · decide

/-- C10 amended.  matrix_to_signal mutates its emote input: the state
visible after the call carries the prefixed plain body, the prefixed
formatted body when a non-empty one is present, and is never equal to the
input value. -/
theorem C10_emote_mutation (parse : List Nat → SignalFormatString)
    (content : TextMessageEventContent) (h : content.msgtype = MessageType.emote) :
    (matrix_to_signal parse content).1.body = meTag ++ content.body
    ∧ (∀ fb, content.formatted_body = some fb → fb ≠ [] →
        (matrix_to_signal parse content).1.formatted_body = some (meTag ++ fb))
    ∧ (matrix_to_signal parse content).1 ≠ content := by
  refine ⟨?_, ?_, ?_⟩
  · simp [matrix_to_signal, h]
  · intro fb hfb hne
    simp [matrix_to_signal, h, hfb, hne]
  · intro heq
    have hb : (matrix_to_signal parse content).1.body = meTag ++ content.body := by
      simp [matrix_to_signal, h]
    rw [heq] at hb
    have hlen := congrArg List.length hb
    simp only [List.length_append, meTag, List.length_cons, List.length_nil] at hlen
    omega

/-- Witness for C10 amended at a one-letter emote body. -/
theorem C10_emote_mutation_witness :
    (matrix_to_signal (fun t => ⟨t, []⟩) ⟨MessageType.emote, [119], none, none⟩).1.body
      = meTag ++ [119]
    ∧ (matrix_to_signal (fun t => ⟨t, []⟩) ⟨MessageType.emote, [119], none, none⟩).1
      ≠ ⟨MessageType.emote, [119], none, none⟩ := by
  have h := C10_emote_mutation (fun t => ⟨t, []⟩) ⟨MessageType.emote, [119], none, none⟩ rfl
  exact ⟨h.1, h.2.2⟩
